import Mathlib

/-!
Verification of the issue-location reconciliation and fix-application
pipeline of the technical-debt-detective editor extension.

The TypeScript sources are shallowly embedded here: JavaScript strings
become `List Char`, JavaScript runtime values decoded from JSON become the
inductive `Json`, JavaScript numbers that can arise in the pipeline become
`JSNum` (an exact rational together with NaN and the two infinities; IEEE
rounding of non-representable decimals is out of scope, no settled claim
depends on it), and code that can throw becomes `Option`-valued, with
`none` landing in the surrounding `catch` exactly as in the source.
-/

set_option maxRecDepth 4000

namespace TDD

/-- JavaScript strings are modelled as lists of characters. -/
abbrev Str := List Char

/-- The set JavaScript's `String.prototype.trim` removes (the common ASCII
whitespace characters; exotic Unicode space classes are not produced by any
code path modelled here). -/
def isJsWs (c : Char) : Bool :=
  c = ' ' || c = '\t' || c = '\n' || c = '\r' || c = '\x0b' || c = '\x0c'

/-- `s.trimStart()` / leading-whitespace removal. -/
def trimLeft (s : Str) : Str := s.dropWhile isJsWs

/-- `s.trimRight()` (used by the `semi` fix branch). -/
def trimRight (s : Str) : Str := (s.reverse.dropWhile isJsWs).reverse

/-- `s.trim()`. -/
def trim (s : Str) : Str := trimRight (trimLeft s)

/-- `a.includes(b)` for strings: substring containment, `true` on the empty
pattern, scanning left to right. -/
def containsSub : Str → Str → Bool
  | _, [] => true
  | [], _ :: _ => false
  | c :: rest, p :: ps =>
    List.isPrefixOf (p :: ps) (c :: rest) || containsSub rest (p :: ps)

/-- `a.indexOf(b)` for strings, as an `Option` (`none` for JavaScript's `-1`). -/
def firstIdxOfSub : Str → Str → Option Nat
  | _, [] => some 0
  | [], _ :: _ => none
  | c :: rest, p :: ps =>
    if List.isPrefixOf (p :: ps) (c :: rest) then some 0
    else (firstIdxOfSub rest (p :: ps)).map (· + 1)

/-- Fuelled worker for `replaceAll` (structural recursion on the fuel so
the kernel can evaluate it; one unit of fuel per consumed character, so
`s.length` units always suffice). -/
def replaceAllAux (pat rep : Str) : Nat → Str → Str
  | _, [] => []
  | 0, s => s
  | fuel + 1, c :: rest =>
    if pat ≠ [] ∧ List.isPrefixOf pat (c :: rest) then
      rep ++ replaceAllAux pat rep fuel (List.drop (pat.length - 1) rest)
    else
      c :: replaceAllAux pat rep fuel rest

/-- `s.replace(/pat/g, rep)` for a literal pattern: left-to-right,
non-overlapping, replacements are not rescanned. The empty pattern cannot
arise from the regexes modelled here and is treated as a no-op. -/
def replaceAll (pat rep : Str) (s : Str) : Str := replaceAllAux pat rep s.length s

/-- `s.split('\n')` (also used, under `String#split` semantics, for
`code.split('\n')`): JavaScript keeps empty segments, including a trailing
one. -/
def splitLines : Str → List Str
  | [] => [[]]
  | c :: rest =>
    if c = '\n' then [] :: splitLines rest
    else
      match splitLines rest with
      | [] => [[c]]
      | seg :: segs => (c :: seg) :: segs

/-- `lines.join('\n')` — the inverse used when a document's text is handed
to `generateFix` as one string. -/
def joinLines : List Str → Str
  | [] => []
  | [l] => l
  | l :: ls => l ++ '\n' :: joinLines ls

/-- `s.toLowerCase()` restricted to ASCII (all patterns compared against
are ASCII). -/
def toLower (s : Str) : Str := s.map Char.toLower

/-! ## JavaScript values decoded from JSON -/

/-- A JavaScript value as produced by `JSON.parse`. Numbers are kept as
exact rationals. -/
inductive Json where
  | null
  | bool (b : Bool)
  | num (q : ℚ)
  | str (s : Str)
  | arr (elems : List Json)
  | obj (fields : List (Str × Json))

/-- A JavaScript number as it flows through `Math.min`/`Math.max` and
`Number(...)` coercion: an exact rational, NaN, or an infinity. -/
inductive JSNum where
  | n (q : ℚ)
  | nan
  | inf
  | negInf
deriving DecidableEq

/-- `v === 'lit'` for an untrusted decoded value `v`: strict equality is
`true` only when `v` is the string `lit`. -/
def jsEqStr (v : Json) (lit : Str) : Bool :=
  match v with
  | .str s => s == lit
  | _ => false

/-- JavaScript truthiness of a decoded value (used by
`parsed.metrics || {...}`). -/
def truthy (v : Json) : Bool :=
  match v with
  | .null => false
  | .bool b => b
  | .num q => !(q == 0)
  | .str s => !(s == [])
  | .arr _ => true
  | .obj _ => true

/-! ## A model of `JSON.parse`

A recursive-descent parser over `List Char`, fuelled to make termination
syntactic; the fuel passed at top level (twice the input length) exceeds
any possible nesting-plus-element count, so exhaustion never fires on
well-formed input. Faithful to `JSON.parse` on the object/array/string/
number/literal grammar; IEEE-double rounding of decoded numerals is not
modelled (values stay exact rationals). -/

/-- Skip JSON whitespace (space, tab, LF, CR). -/
def skipWs (s : Str) : Str :=
  s.dropWhile (fun c => c = ' ' || c = '\t' || c = '\n' || c = '\r')

/-- Decode one hexadecimal digit. -/
def hexDigitVal (c : Char) : Option Nat :=
  if '0' ≤ c ∧ c ≤ '9' then some (c.toNat - '0'.toNat)
  else if 'a' ≤ c ∧ c ≤ 'f' then some (c.toNat - 'a'.toNat + 10)
  else if 'A' ≤ c ∧ c ≤ 'F' then some (c.toNat - 'A'.toNat + 10)
  else none

/-- Parse the body of a JSON string after the opening quote, returning the
decoded characters and the remainder after the closing quote. -/
def parseStringBody : Str → Option (Str × Str)
  | [] => none
  | '"' :: rest => some ([], rest)
  | '\\' :: e :: rest =>
    match e with
    | '"' => (parseStringBody rest).map (fun (s, r) => ('"' :: s, r))
    | '\\' => (parseStringBody rest).map (fun (s, r) => ('\\' :: s, r))
    | '/' => (parseStringBody rest).map (fun (s, r) => ('/' :: s, r))
    | 'b' => (parseStringBody rest).map (fun (s, r) => ('\x08' :: s, r))
    | 'f' => (parseStringBody rest).map (fun (s, r) => ('\x0c' :: s, r))
    | 'n' => (parseStringBody rest).map (fun (s, r) => ('\n' :: s, r))
    | 'r' => (parseStringBody rest).map (fun (s, r) => ('\r' :: s, r))
    | 't' => (parseStringBody rest).map (fun (s, r) => ('\t' :: s, r))
    | 'u' =>
      match rest with
      | h1 :: h2 :: h3 :: h4 :: rest' =>
        match hexDigitVal h1, hexDigitVal h2, hexDigitVal h3, hexDigitVal h4 with
        | some a, some b, some c, some d =>
          let code := ((a * 16 + b) * 16 + c) * 16 + d
          if h : code.isValidChar then
            (parseStringBody rest').map (fun (s, r) => (Char.ofNatAux code h :: s, r))
          else none
        | _, _, _, _ => none
      | _ => none
    | _ => none
  | c :: rest =>
    if c = '"' ∨ c = '\\' then none
    else (parseStringBody rest).map (fun (s, r) => (c :: s, r))

/-- Digits to a natural number (most significant first). -/
def digitsToNat (ds : Str) : Nat :=
  ds.foldl (fun acc c => acc * 10 + (c.toNat - '0'.toNat)) 0

/-- Parse a JSON numeral `-?int(.frac)?([eE][+-]?digits)?` into an exact
rational, returning the remainder. -/
def parseNumber (s : Str) : Option (ℚ × Str) :=
  let (neg, s1) :=
    match s with
    | '-' :: r => (true, r)
    | _ => (false, s)
  let intDs := s1.takeWhile Char.isDigit
  let s2 := s1.dropWhile Char.isDigit
  if intDs = [] then none
  else
    let (fracDs, s3) :=
      match s2 with
      | '.' :: r => (r.takeWhile Char.isDigit, r.dropWhile Char.isDigit)
      | _ => ([], s2)
    if s2 ≠ [] ∧ s2.head? = some '.' ∧ fracDs = [] then none
    else
      let (expOk, expNeg, expDs, s4) :=
        match s3 with
        | 'e' :: '+' :: r => (true, false, r.takeWhile Char.isDigit, r.dropWhile Char.isDigit)
        | 'e' :: '-' :: r => (true, true, r.takeWhile Char.isDigit, r.dropWhile Char.isDigit)
        | 'e' :: r => (true, false, r.takeWhile Char.isDigit, r.dropWhile Char.isDigit)
        | 'E' :: '+' :: r => (true, false, r.takeWhile Char.isDigit, r.dropWhile Char.isDigit)
        | 'E' :: '-' :: r => (true, true, r.takeWhile Char.isDigit, r.dropWhile Char.isDigit)
        | 'E' :: r => (true, false, r.takeWhile Char.isDigit, r.dropWhile Char.isDigit)
        | _ => (false, false, [], s3)
      if expOk ∧ expDs = [] then none
      else
        let mant : ℚ := (digitsToNat intDs : ℚ) +
          (digitsToNat fracDs : ℚ) / ((10 : ℚ) ^ fracDs.length)
        let e : ℤ := if expNeg then -(digitsToNat expDs : ℤ) else (digitsToNat expDs : ℤ)
        let q : ℚ := (if neg then -mant else mant) * (10 : ℚ) ^ e
        some (q, s4)

mutual

/-- Parse one JSON value (after leading whitespace has been skipped). -/
def parseValue : Nat → Str → Option (Json × Str)
  | 0, _ => none
  | _ + 1, [] => none
  | fuel + 1, c :: rest =>
    match c with
    | '{' =>
      let s := skipWs rest
      match s with
      | '}' :: r => some (.obj [], r)
      | _ => (parseFields fuel s).map (fun (fs, r) => (.obj fs, r))
    | '[' =>
      let s := skipWs rest
      match s with
      | ']' :: r => some (.arr [], r)
      | _ => (parseElems fuel s).map (fun (es, r) => (.arr es, r))
    | '"' => (parseStringBody rest).map (fun (s, r) => (.str s, r))
    | 't' =>
      match rest with
      | 'r' :: 'u' :: 'e' :: r => some (.bool true, r)
      | _ => none
    | 'f' =>
      match rest with
      | 'a' :: 'l' :: 's' :: 'e' :: r => some (.bool false, r)
      | _ => none
    | 'n' =>
      match rest with
      | 'u' :: 'l' :: 'l' :: r => some (.null, r)
      | _ => none
    | _ => (parseNumber (c :: rest)).map (fun (q, r) => (.num q, r))

/-- Parse the (non-empty) element list of an array, consuming the closing
bracket. -/
def parseElems : Nat → Str → Option (List Json × Str)
  | 0, _ => none
  | fuel + 1, s =>
    match parseValue fuel s with
    | none => none
    | some (v, r) =>
      match skipWs r with
      | ',' :: r2 => (parseElems fuel (skipWs r2)).map (fun p => (v :: p.1, p.2))
      | ']' :: r2 => some ([v], r2)
      | _ => none

/-- Parse the (non-empty) field list of an object, consuming the closing
brace. -/
def parseFields : Nat → Str → Option (List (Str × Json) × Str)
  | 0, _ => none
  | fuel + 1, s =>
    match s with
    | '"' :: rest =>
      match parseStringBody rest with
      | none => none
      | some (k, r) =>
        match skipWs r with
        | ':' :: r2 =>
          match parseValue fuel (skipWs r2) with
          | none => none
          | some (v, r3) =>
            match skipWs r3 with
            | ',' :: r4 => (parseFields fuel (skipWs r4)).map
                (fun p => ((k, v) :: p.1, p.2))
            | '}' :: r4 => some ([(k, v)], r4)
            | _ => none
        | _ => none
    | _ => none

end

/-- `JSON.parse`: parse one value and require only whitespace to remain. -/
def jsonParse (s : Str) : Option Json :=
  match parseValue (2 * s.length + 2) (skipWs s) with
  | some (v, rest) => if skipWs rest = [] then some v else none
  | none => none

/-! ## JavaScript coercions used by the mapping stage -/

/-- Decimal digits of a natural number. -/
def natToStr (n : Nat) : Str := Nat.toDigits 10 n

/-- Decimal representation of an integer. -/
def intToStr (i : ℤ) : Str :=
  if i < 0 then '-' :: natToStr i.natAbs else natToStr i.toNat

/-- Up to `k` decimal digits of a rational in `[0,1)`. JavaScript prints
the shortest round-tripping decimal of the IEEE double; this truncated
expansion only ever feeds case-insensitive *alphabetic* substring checks
and `parseInt`, which digits cannot perturb. -/
def fracDigits : Nat → ℚ → Str
  | 0, _ => []
  | k + 1, q =>
    if q = 0 then []
    else
      let d : ℤ := ⌊q * 10⌋
      Char.ofNat ('0'.toNat + d.toNat) :: fracDigits k (q * 10 - (d : ℚ))

/-- `String(x)` for a JavaScript number. -/
def numToStr (q : ℚ) : Str :=
  let sign : Str := if q < 0 then ['-'] else []
  let a := |q|
  let ip := (⌊a⌋).toNat
  let fp := a - (ip : ℚ)
  sign ++ natToStr ip ++ (if fp = 0 then [] else '.' :: fracDigits 17 fp)

mutual

/-- `String(v)` for a decoded value. -/
def jsonToStr : Json → Str
  | .null => "null".data
  | .bool true => "true".data
  | .bool false => "false".data
  | .num q => numToStr q
  | .str s => s
  | .arr xs => jsonToStrList xs
  | .obj _ => "[object Object]".data

/-- `Array.prototype.toString` = elements joined with commas, with `null`
(and `undefined`, which cannot be decoded from JSON) printing as empty. -/
def jsonToStrList : List Json → Str
  | [] => []
  | [v] => (match v with | .null => [] | w => jsonToStr w)
  | v :: rest => (match v with | .null => [] | w => jsonToStr w) ++ ',' :: jsonToStrList rest

end

/-- `String(x)` where `x` may be `undefined` (a missing property). -/
def jsValToStr : Option Json → Str
  | none => "undefined".data
  | some v => jsonToStr v

/-- `parseInt` on a string: skip leading whitespace, optional sign, then
leading decimal digits; no digits gives NaN (`none`). The `0x` radix
prefix is not modelled — no value in the pipeline carries one. -/
def parseIntStr (s : Str) : Option ℤ :=
  let (neg, t) :=
    match trimLeft s with
    | '-' :: r => (true, r)
    | '+' :: r => (false, r)
    | r => (false, r)
  let ds := t.takeWhile Char.isDigit
  if ds = [] then none
  else some (if neg then -(digitsToNat ds : ℤ) else (digitsToNat ds : ℤ))

/-- `parseInt(x) || d`: NaN, `0` and `-0` all fall back to the default. -/
def parseIntOr (v : Option Json) (d : ℤ) : ℤ :=
  match parseIntStr (jsValToStr v) with
  | some z => if z = 0 then d else z
  | none => d

/-- A full `Number(...)` string numeral
`digits(.digits)?` / `.digits`, with optional exponent, requiring the whole
string to be consumed. -/
def parseNumLit (s : Str) : Option ℚ :=
  let intDs := s.takeWhile Char.isDigit
  let s1 := s.dropWhile Char.isDigit
  let (fracDs, s2) :=
    match s1 with
    | '.' :: r => (r.takeWhile Char.isDigit, r.dropWhile Char.isDigit)
    | _ => ([], s1)
  if intDs = [] ∧ fracDs = [] then none
  else
    let (expOk, expNeg, expDs, s3) :=
      match s2 with
      | 'e' :: '+' :: r => (true, false, r.takeWhile Char.isDigit, r.dropWhile Char.isDigit)
      | 'e' :: '-' :: r => (true, true, r.takeWhile Char.isDigit, r.dropWhile Char.isDigit)
      | 'e' :: r => (true, false, r.takeWhile Char.isDigit, r.dropWhile Char.isDigit)
      | 'E' :: '+' :: r => (true, false, r.takeWhile Char.isDigit, r.dropWhile Char.isDigit)
      | 'E' :: '-' :: r => (true, true, r.takeWhile Char.isDigit, r.dropWhile Char.isDigit)
      | 'E' :: r => (true, false, r.takeWhile Char.isDigit, r.dropWhile Char.isDigit)
      | _ => (false, false, [], s2)
    if expOk ∧ expDs = [] then none
    else if s3 ≠ [] then none
    else
      let mant : ℚ := (digitsToNat intDs : ℚ) +
        (digitsToNat fracDs : ℚ) / ((10 : ℚ) ^ fracDs.length)
      let e : ℤ := if expNeg then -(digitsToNat expDs : ℤ) else (digitsToNat expDs : ℤ)
      some (mant * (10 : ℚ) ^ e)

/-- `Number(s)` for a string: empty/whitespace is `0`, signed `Infinity`
is an infinity, a full numeral is its value, anything else NaN. -/
def strToNumber (s : Str) : JSNum :=
  let t := trim s
  if t = [] then .n 0
  else
    let (neg, t1) :=
      match t with
      | '-' :: r => (true, r)
      | '+' :: r => (false, r)
      | r => (false, r)
    if t1 = "Infinity".data then (if neg then .negInf else .inf)
    else
      match parseNumLit t1 with
      | some q => .n (if neg then -q else q)
      | none => .nan

/-- `Number(v)` / the ToNumber coercion applied by `Math.min`/`Math.max`
to a decoded value. Arrays go through their string form: empty is `0`, a
single element behaves as that element (`null` printing empty, booleans
spelling out and so failing), and two or more elements always contain a
comma and so are NaN. -/
def toNumber : Json → JSNum
  | .null => .n 0
  | .bool b => .n (if b then 1 else 0)
  | .num q => .n q
  | .str s => strToNumber s
  | .arr [] => .n 0
  | .arr [v] =>
    (match v with
     | .null => .n 0
     | .bool _ => .nan
     | .num q => .n q
     | .str s => strToNumber s
     | .arr xs => toNumber (.arr xs)
     | .obj _ => .nan)
  | .arr (_ :: _ :: _) => .nan
  | .obj _ => .nan

/-- `Math.min(a, b)`: NaN-propagating minimum. -/
def jsMin : JSNum → JSNum → JSNum
  | .nan, _ => .nan
  | _, .nan => .nan
  | .negInf, _ => .negInf
  | _, .negInf => .negInf
  | .inf, b => b
  | a, .inf => a
  | .n a, .n b => .n (min a b)

/-- `Math.max(a, b)`: NaN-propagating maximum. -/
def jsMax : JSNum → JSNum → JSNum
  | .nan, _ => .nan
  | _, .nan => .nan
  | .inf, _ => .inf
  | _, .inf => .inf
  | .negInf, b => b
  | a, .negInf => a
  | .n a, .n b => .n (max a b)

/-- `Math.max(1, Math.min(10, x))` — the health-score clamp. -/
def clampHealth (x : JSNum) : JSNum := jsMax (.n 1) (jsMin (.n 10) x)

/-! ## The analysis data model (post-parse runtime shapes) -/

/-- One mapped issue (`CodeIssue`). `type`, `description` and the optional
fields stay untrusted decoded values, exactly as the defensive mapping
leaves them at runtime; `severity` is a string that the mapping always
normalizes; `line`/`fixTime` come out of `parseInt(..) || default`. -/
structure CodeIssue where
  type : Json
  severity : Str
  line : ℤ
  description : Json
  fixTime : ℤ
  suggestion : Option Json
  codeSnippet : Option Json

/-- The full report (`AnalysisResult`). -/
structure AnalysisResult where
  healthScore : JSNum
  issues : List CodeIssue
  suggestions : List Json
  metrics : Json

/-- Property read `base.k`: `none` models the TypeError thrown on a `null`
base (caught by the surrounding `try`); `some none` is `undefined`;
duplicate keys resolve to the last one, as in a decoded object. -/
def getField : Json → Str → Option (Option Json)
  | .null, _ => none
  | .obj fs, k => some (fs.foldl (fun acc p => if p.1 == k then some p.2 else acc) none)
  | _, _ => some none

/-- `x ?? d` after a property read. -/
def nullish (v : Option Json) (d : Json) : Json :=
  match v with
  | none => d
  | some .null => d
  | some j => j

/-- `normalizeSeverity`: stringify, lowercase, containment-match. -/
def normalizeSeverity (v : Option Json) : Str :=
  let s := toLower (jsValToStr v)
  if containsSub s "high".data || containsSub s "error".data then "high".data
  else if containsSub s "medium".data || containsSub s "warn".data then "medium".data
  else "low".data

/-- Map one raw issue entry; `none` models the TypeError on a `null`
entry, which aborts the whole `issues.map` and lands in the catch. -/
def mapIssue (e : Json) : Option CodeIssue :=
  match getField e "type".data with
  | none => none
  | some t =>
  match getField e "severity".data with
  | none => none
  | some sv =>
  match getField e "line".data with
  | none => none
  | some ln =>
  match getField e "description".data with
  | none => none
  | some d =>
  match getField e "fixTime".data with
  | none => none
  | some ft =>
  match getField e "suggestion".data with
  | none => none
  | some sg =>
  match getField e "codeSnippet".data with
  | none => none
  | some cs =>
  some { type := nullish t (.str "unknown".data)
         severity := normalizeSeverity sv
         line := parseIntOr ln 1
         description := nullish d (.str "No description".data)
         fixTime := parseIntOr ft 15
         suggestion := sg
         codeSnippet := cs }

/-- `parsed.issues.map(...)`, aborting on the first thrown entry. -/
def mapIssues : List Json → Option (List CodeIssue)
  | [] => some []
  | e :: rest =>
    match mapIssue e with
    | none => none
    | some i =>
      match mapIssues rest with
      | none => none
      | some is => some (i :: is)

/-- The object-literal default for `metrics`. -/
def defaultMetrics : Json :=
  .obj [("complexity".data, .num 1), ("duplicates".data, .num 0),
        ("codeSmells".data, .num 0)]

/-- `Array.isArray(parsed.issues) ? parsed.issues.map(...) : []`. -/
def issuesOf (isf : Option Json) : Option (List CodeIssue) :=
  match isf with
  | some (.arr xs) => mapIssues xs
  | _ => some []

/-- The defensive field-mapping of a successfully decoded value; `none`
models a TypeError escaping to the catch. -/
def mapParsed (parsed : Json) : Option AnalysisResult :=
  match getField parsed "healthScore".data with
  | none => none
  | some hsf =>
    let hs := clampHealth
      (match hsf with
       | none => .n 5
       | some .null => .n 5
       | some v => toNumber v)
    match getField parsed "issues".data with
    | none => none
    | some isf =>
      match issuesOf isf with
      | none => none
      | some issues =>
        match getField parsed "suggestions".data with
        | none => none
        | some sgf =>
          let suggestions := match sgf with | some (.arr xs) => xs | _ => []
          match getField parsed "metrics".data with
          | none => none
          | some mf =>
            let metrics :=
              match mf with
              | some v => if truthy v then v else defaultMetrics
              | none => defaultMetrics
            some ⟨hs, issues, suggestions, metrics⟩

/-- The first match of `/\{[\s\S]*\}/` in `output`: greedily from the
first brace to the last closing brace after it. -/
def extractJsonCandidate (s : Str) : Option Str :=
  match s.findIdx? (· = '\x7b') with
  | none => none
  | some i =>
    match s.reverse.findIdx? (· = '\x7d') with
    | none => none
    | some rj =>
      let j := s.length - 1 - rj
      if i < j then some ((s.drop i).take (j - i + 1)) else none

/-- The synthesized issue the text-scanning extractor pushes for a
`console.log` mention. -/
def consoleIssue (n : ℤ) : CodeIssue :=
  { type := .str "no-console".data
    severity := "medium".data
    line := n
    description := .str "Console.log statement found".data
    fixTime := 2
    suggestion := some (.str "Remove console.log statements from production code".data)
    codeSnippet := none }

/-- The synthesized issue for a `var` mention. -/
def varIssue (n : ℤ) : CodeIssue :=
  { type := .str "no-var".data
    severity := "high".data
    line := n
    description := .str "Use of \x27var\x27 keyword".data
    fixTime := 2
    suggestion := some (.str "Replace \x27var\x27 with \x27let\x27 or \x27const\x27".data)
    codeSnippet := none }

/-- First match of `/line\s*(\d+)/i`, as a captured number. -/
def regexLineNum : Str → Option Nat
  | [] => none
  | c :: rest =>
    (if List.isPrefixOf "line".data (toLower (c :: rest)) then
      let after := ((c :: rest).drop 4).dropWhile isJsWs
      let ds := after.takeWhile Char.isDigit
      if ds ≠ [] then some (digitsToNat ds) else none
     else none).orElse (fun _ => regexLineNum rest)

/-- The `forEach` body of `createFallbackResult`, in push order. -/
def fallbackIssues : List Str → List CodeIssue
  | [] => []
  | line :: rest =>
    (if containsSub line "line".data && containsSub line ":".data then
      let lineNum : ℤ := match regexLineNum line with | some n => (n : ℤ) | none => 1
      let low := toLower line
      if containsSub low "console.log".data then [consoleIssue lineNum]
      else if containsSub low "var".data then [varIssue lineNum]
      else []
     else []) ++ fallbackIssues rest

/-- `createFallbackResult`: the degraded text-scanning extractor. -/
def createFallbackResult (output : Str) : AnalysisResult :=
  let issues := fallbackIssues (splitLines output)
  { healthScore := .n 6
    issues := issues
    suggestions := [.str "Consider refactoring for better code quality".data]
    metrics := .obj [("complexity".data, .num 1), ("duplicates".data, .num 0),
                     ("codeSmells".data, .num (issues.length : ℚ))] }

/-- `parseAnalysisResult`: extract a brace-delimited candidate (else the
whole output), decode it, defensively map the fields; any decode failure
or mapping TypeError falls back to the text-scanning extractor. -/
def parseAnalysisResult (output : Str) : AnalysisResult :=
  let cand := (extractJsonCandidate output).getD output
  match jsonParse cand with
  | none => createFallbackResult output
  | some parsed =>
    match mapParsed parsed with
    | none => createFallbackResult output
    | some r => r

/-! ## Location reconciliation (`createDiagnosticForIssue`) -/

/-- `getSearchPatternForIssue`'s `switch` over `issue.type` (strict
equality, so non-string types fall through to the default `''`). The
`eqeqeq` case calls `.includes('!==')` on the untrusted description:
strings check substrings, arrays check membership, and every other shape
throws (`none`). -/
def getSearchPatternForIssue (issue : CodeIssue) : Option Str :=
  if jsEqStr issue.type "no-var".data then some "var ".data
  else if jsEqStr issue.type "no-console".data then some "console.log".data
  else if jsEqStr issue.type "eqeqeq".data then
    match issue.description with
    | .str s => some (if containsSub s "!==".data then "!=".data else "==".data)
    | .arr xs => some (if xs.any (fun e => jsEqStr e "!==".data) then "!=".data else "==".data)
    | _ => none
  else if jsEqStr issue.type "semi".data then some ";".data
  else some []

/-- First line index in `[lo, hi)` whose text contains `pat`. -/
def findInRange (doc : List Str) (pat : Str) (lo hi : Nat) : Option Nat :=
  ((List.range doc.length).filter
    (fun i => lo ≤ i && i < hi && containsSub (doc.getD i []) pat)).head?

/-- `findLineWithPattern`: a window of lines around the model's suggested
line first (`suggestedLine` is truthy unless `0`), then the whole
document, else `-1`. -/
def findLineWithPattern (doc : List Str) (pattern : Str) (suggestedLine : ℤ) : ℤ :=
  if pattern = [] then (if suggestedLine ≠ 0 then suggestedLine - 1 else -1)
  else
    let windowHit : Option Nat :=
      if suggestedLine ≠ 0 then
        let lo := (max 0 (suggestedLine - 3)).toNat
        let hi := (min (doc.length : ℤ) (suggestedLine + 2)).toNat
        findInRange doc pattern lo hi
      else none
    match windowHit with
    | some i => (i : ℤ)
    | none =>
      match findInRange doc pattern 0 doc.length with
      | some i => (i : ℤ)
      | none => -1

/-- An editor range, as the raw numbers the source computes. -/
structure DiagRange where
  startLine : ℤ
  startChar : ℤ
  endLine : ℤ
  endChar : ℤ

/-- One produced diagnostic: range, rendered message, mapped severity
(0 error / 1 warning / 2 information), the issue kind as `code`, and the
attached issue payload. -/
structure Diagnostic where
  range : DiagRange
  message : Str
  dsev : Nat
  code : Json
  issueData : CodeIssue

/-- The diagnostic message template
`` `${issue.description} (Est. ${issue.fixTime} min to fix)` ``. -/
def diagMessage (issue : CodeIssue) : Str :=
  jsonToStr issue.description ++ " (Est. ".data ++ intToStr issue.fixTime
    ++ " min to fix)".data

/-- The severity mapping of the produced diagnostic. -/
def diagSeverity (issue : CodeIssue) : Nat :=
  if issue.severity = "high".data then 0
  else if issue.severity = "medium".data then 1
  else 2

/-- The diagnostic wrapper around a computed range. -/
def mkDiagFor (issue : CodeIssue) (r : DiagRange) : Diagnostic :=
  { range := r, message := diagMessage issue, dsev := diagSeverity issue
    code := issue.type, issueData := issue }

/-- The `else` arm of the locator: clamp `(issue.line || 1) - 1` into
document bounds; `lineAt` on an empty document throws (`none`). -/
def clampRangeOf (doc : List Str) (issue : CodeIssue) : Option DiagRange :=
  let l := max 0 ((if issue.line = 0 then 1 else issue.line) - 1)
  let safe := min l ((doc.length : ℤ) - 1)
  if safe < 0 then none
  else some ⟨safe, 0, safe, ((doc.getD safe.toNat []).length : ℤ)⟩

/-- `createDiagnosticForIssue`: locate by pattern for the three literal
kinds, else clamp the declared line; the surrounding `try` turns any
throw (non-string description under `.includes`, or `lineAt` out of
bounds) into `null` (`none`). -/
def createDiagnosticForIssue (doc : List Str) (issue : CodeIssue) : Option Diagnostic :=
  if jsEqStr issue.type "no-var".data || jsEqStr issue.type "no-console".data
      || jsEqStr issue.type "eqeqeq".data then
    match getSearchPatternForIssue issue with
    | none => none
    | some pat =>
      let li := findLineWithPattern doc pat issue.line
      if 0 ≤ li then
        if li < (doc.length : ℤ) then
          let lineText := doc.getD li.toNat []
          match firstIdxOfSub lineText pat with
          | some m => some (mkDiagFor issue ⟨li, (m : ℤ), li, ((m + pat.length : Nat) : ℤ)⟩)
          | none => some (mkDiagFor issue ⟨li, 0, li, (lineText.length : ℤ)⟩)
        else none
      else (clampRangeOf doc issue).map (mkDiagFor issue)
  else (clampRangeOf doc issue).map (mkDiagFor issue)

/-! ## The fix pipeline (`generateFix` and the applyFix command) -/

/-- The backtick character (code fences). -/
def fenceChar : Char := Char.ofNat 96

/-- `/^```[a-z]*\n?/` removal. -/
def stripOpenFence (s : Str) : Str :=
  match s with
  | a :: b :: c :: r =>
    if a = fenceChar ∧ b = fenceChar ∧ c = fenceChar then
      let r2 := r.dropWhile (fun ch => 'a' ≤ ch && ch ≤ 'z')
      match r2 with
      | '\n' :: r3 => r3
      | _ => r2
    else s
  | _ => s

/-- `/\n?```$/` removal. -/
def stripCloseFence (s : Str) : Str :=
  match s.reverse with
  | a :: b :: c :: r =>
    if a = fenceChar ∧ b = fenceChar ∧ c = fenceChar then
      match r with
      | '\n' :: r2 => r2.reverse
      | _ => r.reverse
    else s
  | _ => s

/-- A quote character for `/^["']|["']$/g`. -/
def isQuoteCh (c : Char) : Bool := c = '"' || c = '\x27'

/-- `/^["']|["']$/g` removal: one leading and one trailing quote. -/
def stripQuotes (s : Str) : Str :=
  let s1 :=
    match s with
    | c :: r => if isQuoteCh c then r else s
    | [] => []
  match s1.reverse with
  | c :: r => if isQuoteCh c then r.reverse else s1
  | [] => []

/-- The first response cleanup: fences, quotes, trim. -/
def cleanFix1 (s : Str) : Str := trim (stripQuotes (stripCloseFence (stripOpenFence s)))

/-- The retry response cleanup: fences and trim only. -/
def cleanFix2 (s : Str) : Str := trim (stripCloseFence (stripOpenFence s))

/-- The misfire signature check on the cleaned first response. -/
def misfireShape (f : Str) : Bool :=
  containsSub f "\"healthScore\"".data ||
    (containsSub f "\x7b".data && containsSub f "\x7d".data &&
      containsSub f "\"issues\"".data)

/-- A JavaScript word character (for `\b`). -/
def isWordChar (c : Char) : Bool := c.isAlphanum || c = '_'

/-- Does `/\bvar\b/` match at the head of `s`, with `prev` the character
before it? -/
def varBoundaryMatch (prev : Option Char) (s : Str) : Bool :=
  match s with
  | 'v' :: 'a' :: 'r' :: rest =>
    (match prev with | none => true | some p => !isWordChar p) &&
      (match rest with | [] => true | c :: _ => !isWordChar c)
  | _ => false

/-- Scan for the first `\bvar\b` and replace it with `let`. -/
def replaceVarGo (prev : Option Char) : Str → Str
  | [] => []
  | c :: rest =>
    if varBoundaryMatch prev (c :: rest) then "let".data ++ rest.drop 2
    else c :: replaceVarGo (some c) rest

/-- `line.replace(/\bvar\b/, 'let')`. -/
def replaceFirstVarWord (s : Str) : Str := replaceVarGo none s

/-- `lines[Math.max(0, issue.line - 1)] || ''` on the split code. -/
def problemLineOf (code : Str) (issue : CodeIssue) : Str :=
  (splitLines code).getD (max 0 (issue.line - 1)).toNat []

/-- `generateFix`'s deterministic per-kind fallback applied to the
original problem line. -/
def genFixFallback (issue : CodeIssue) (problemLine : Str) : Str :=
  if jsEqStr issue.type "no-console".data then "    // ".data ++ trim problemLine
  else if jsEqStr issue.type "no-var".data then replaceFirstVarWord problemLine
  else if jsEqStr issue.type "eqeqeq".data then
    replaceAll "==".data "===".data (replaceAll "!=".data "!==".data problemLine)
  else problemLine

/-- `generateFix`, with the two opaque model responses (`raw1` for the
primary prompt, `raw2` for the simpler retry issued on a detected
misfire) passed in as parameters. -/
def generateFix (code : Str) (issue : CodeIssue) (raw1 raw2 : Str) : Str :=
  let problemLine := problemLineOf code issue
  let f1 := cleanFix1 raw1
  let f2 :=
    if misfireShape f1 then cleanFix2 (if raw2 = [] then problemLine else raw2)
    else f1
  if f2 = [] || containsSub f2 "\"healthScore\"".data then
    genFixFallback issue problemLine
  else f2

/-- The replacement text the applyFix command hands to the workspace edit
for the target line: deterministic per-kind transforms for the four known
kinds, the trimmed generated fix otherwise, and no edit at all when that
fix is blank. -/
def applyFixEdit (type : Json) (lineText : Str) (fix : Str) : Option Str :=
  if jsEqStr type "no-var".data then some (replaceFirstVarWord lineText)
  else if jsEqStr type "no-console".data then some ("// ".data ++ trim lineText)
  else if jsEqStr type "eqeqeq".data then
    some (if containsSub lineText "!=".data && !containsSub lineText "!==".data then
            replaceAll "!=".data "!==".data lineText
          else if containsSub lineText "==".data && !containsSub lineText "===".data then
            replaceAll "==".data "===".data lineText
          else lineText)
  else if jsEqStr type "semi".data then some (trimRight lineText ++ ";".data)
  else if fix ≠ [] && trim fix ≠ [] then some (trim fix)
  else none

/-- The applyFix command end to end: generate a fix for the document text,
then build the replacement for the diagnostic's line. -/
def applyFixPipeline (doc : List Str) (diagLine : Nat) (issue : CodeIssue)
    (raw1 raw2 : Str) : Option Str :=
  applyFixEdit issue.type (doc.getD diagLine [])
    (generateFix (joinLines doc) issue raw1 raw2)

/-! ## The analysis cache (`DiagnosticManager`) -/

/-- `Map.set`: replace in place or append. -/
def setAssoc {α : Type} (k : Str) (v : α) : List (Str × α) → List (Str × α)
  | [] => [(k, v)]
  | (k', v') :: rest =>
    if k' = k then (k, v) :: rest else (k', v') :: setAssoc k v rest

/-- `Map.get`. -/
def getAssoc {α : Type} (k : Str) : List (Str × α) → Option α
  | [] => none
  | (k', v') :: rest => if k' = k then some v' else getAssoc k rest

/-- `Map.delete`. -/
def delAssoc {α : Type} (k : Str) (l : List (Str × α)) : List (Str × α) :=
  l.filter (fun p => p.1 ≠ k)

/-- `DiagnosticManager`: the host diagnostic collection and the analysis
cache, both keyed by the document's file-system path (the source keys the
collection by URI and the cache by `uri.fsPath`; one stable identity
string stands for both). -/
structure DiagnosticManager where
  collection : List (Str × List Diagnostic)
  analysisCache : List (Str × AnalysisResult)

/-- A fresh manager (constructor). -/
def newDiagnosticManager : DiagnosticManager := ⟨[], []⟩

/-- `updateDiagnostics`: set both maps for this document. -/
def updateDiagnostics (dm : DiagnosticManager) (fsPath : Str)
    (diags : List Diagnostic) (analysis : AnalysisResult) : DiagnosticManager :=
  { collection := setAssoc fsPath diags dm.collection
    analysisCache := setAssoc fsPath analysis dm.analysisCache }

/-- `getAnalysis`. -/
def getAnalysis (dm : DiagnosticManager) (fsPath : Str) : Option AnalysisResult :=
  getAssoc fsPath dm.analysisCache

/-- `clearDiagnostics`: delete this document from both maps. -/
def clearDiagnostics (dm : DiagnosticManager) (fsPath : Str) : DiagnosticManager :=
  { collection := delAssoc fsPath dm.collection
    analysisCache := delAssoc fsPath dm.analysisCache }

/-- `dispose`: release the collection and clear the cache. -/
def disposeDM (_dm : DiagnosticManager) : DiagnosticManager := ⟨[], []⟩

/-! ## `performAnalysis` and the save/open debouncer -/

/-- A host document: its lines and its stable file-system path. -/
structure Document where
  lines : List Str
  fsPath : Str

/-- `document.getText()`. -/
def getText (d : Document) : Str := joinLines d.lines

/-- The extension state `performAnalysis` can touch: the diagnostic
manager (collection + cache) and the dashboard's last-pushed data. -/
structure ExtState where
  dm : DiagnosticManager
  dashboard : Option (AnalysisResult × Str)

/-- `performAnalysis`, with the opaque model call's result passed in; the
returned flag records whether the model was invoked. Empty or
whitespace-only text returns before the model call, touching nothing. -/
def performAnalysis (doc : Document) (modelResult : AnalysisResult)
    (s : ExtState) : ExtState × Bool :=
  if trim (getText doc) = [] then (s, false)
  else
    let diags := modelResult.issues.filterMap
      (fun i => createDiagnosticForIssue doc.lines i)
    ({ dm := updateDiagnostics s.dm doc.fsPath diags modelResult
       dashboard := some (modelResult, doc.fsPath) }, true)

/-- The single shared debouncer of `debounce(performAnalysis, 1000)`: one
timeout variable for all documents. Given the trigger events as
`(timestamp, document)` pairs in time order, a pending timer set at `t1`
fires iff the next trigger comes at `t1 + wait` or later (any earlier
trigger — for whichever document — clears it); the last trigger always
fires. -/
def debounceFired (wait : Nat) : List (Nat × Str) → List Str
  | [] => []
  | [(_, d)] => [d]
  | (t1, d1) :: (t2, d2) :: rest =>
    (if t1 + wait ≤ t2 then [d1] else []) ++ debounceFired wait ((t2, d2) :: rest)

/-- Every consecutive pair of triggers is closer than the quiet period. -/
def rapidGaps (wait : Nat) : List (Nat × Str) → Bool
  | [] => true
  | [_] => true
  | (t1, _) :: (t2, d2) :: rest =>
    decide (t2 < t1 + wait) && rapidGaps wait ((t2, d2) :: rest)

/-! # Theorems -/

/-! ## Shared input fixtures -/

/-- The analysis-report JSON that a misfiring fix generation echoes. -/
def misfireJson : Str :=
  "\x7b\"healthScore\":5,\"issues\":[],\"suggestions\":[]\x7d".data

/-- A post-parse issue of the given kind at the given declared line, with
a description that mentions `!==`. -/
def mkIssue (ty : String) (ln : ℤ) : CodeIssue :=
  { type := .str ty.data
    severity := "medium".data
    line := ln
    description := .str "use !== instead of !=".data
    fixTime := 2
    suggestion := none
    codeSnippet := none }

/-! ## C6 — cache lifecycle -/

theorem getAssoc_setAssoc {α : Type} (k : Str) (v : α) (l : List (Str × α)) :
    getAssoc k (setAssoc k v l) = some v := by
  induction l with
  | nil => simp [setAssoc, getAssoc]
  | cons p rest ih =>
    obtain ⟨k', v'⟩ := p
    by_cases h : k' = k <;> simp [setAssoc, getAssoc, h, ih]

theorem getAssoc_delAssoc {α : Type} (k : Str) (l : List (Str × α)) :
    getAssoc k (delAssoc k l) = none := by
  induction l with
  | nil => simp [delAssoc, getAssoc]
  | cons p rest ih =>
    obtain ⟨k', v'⟩ := p
    by_cases h : k' = k <;> simp [delAssoc, getAssoc, h] <;>
      simpa [delAssoc] using ih

/-- C6 (cache lifecycle): a second `update` for the same identity fully
replaces the first result (never a merge), removal makes the identity
absent, and teardown makes every identity absent. -/
theorem cache_lifecycle :
    ∀ (dm : DiagnosticManager) (p : Str) (d1 d2 : List Diagnostic)
      (r1 r2 : AnalysisResult),
      getAnalysis (updateDiagnostics (updateDiagnostics dm p d1 r1) p d2 r2) p
          = some r2 ∧
        (∀ dm' : DiagnosticManager, getAnalysis (clearDiagnostics dm' p) p = none) ∧
        (∀ (dm' : DiagnosticManager) (q : Str), getAnalysis (disposeDM dm') q = none) := by
  intro dm p d1 d2 r1 r2
  refine ⟨?_, ?_, ?_⟩
  · simp [getAnalysis, updateDiagnostics, getAssoc_setAssoc]
  · intro dm'
    simp [getAnalysis, clearDiagnostics, getAssoc_delAssoc]
  · intro dm' q
    simp [getAnalysis, disposeDM, getAssoc]

/-! ## C7 — degraded-parse scenario -/

/-- The JSON-free model output of the degraded-parse scenario. -/
def degradedInput : Str := "Found issues:\nline 5: console.log usage is bad\n".data

/-- C7 (degraded parse): on the JSON-free output the parser degrades to
exactly one `no-console` issue of medium severity at declared line 5,
with health score 6. -/
theorem degraded_parse :
    (parseAnalysisResult degradedInput).healthScore = .n 6 ∧
      (parseAnalysisResult degradedInput).issues.map
          (fun i => (jsEqStr i.type "no-console".data, i.severity, i.line))
        = [(true, "medium".data, (5 : ℤ))] := by
  constructor <;> rfl

/-! ## C10 — empty-document frame condition -/

/-- C10 (empty-document frame): whitespace-only text returns before the
model call and leaves the diagnostics collection, the cache and the
dashboard untouched. -/
theorem empty_doc_frame (doc : Document) (res : AnalysisResult) (s : ExtState)
    (h : trim (getText doc) = []) :
    performAnalysis doc res s = (s, false) := by
  unfold performAnalysis
  rw [if_pos h]

/-- A whitespace-only two-line document. -/
def blankDoc : Document := ⟨["  ".data, "\t ".data], "/tmp/blank.ts".data⟩

/-- A concrete model result and extension state for the C10 witness. -/
def someResult : AnalysisResult := createFallbackResult "no json here".data

theorem empty_doc_frame_witness :
    performAnalysis blankDoc someResult ⟨newDiagnosticManager, none⟩
      = (⟨newDiagnosticManager, none⟩, false) :=
  empty_doc_frame blankDoc someResult ⟨newDiagnosticManager, none⟩ (by decide)

/-! ## C4 — eqeqeq substitution ordering -/

/-- C4 (eqeqeq ordering): on `"if (a != b) {}"` the fix applied for an
`eqeqeq` issue is exactly `"if (a !== b) {}"`, never the double-substituted
`"if (a !=== b) {}"`. -/
theorem eqeqeq_ordering :
    applyFixPipeline ["if (a != b) \x7b\x7d".data] 0 (mkIssue "eqeqeq" 1)
        "raw".data "raw2".data
      = some "if (a !== b) \x7b\x7d".data ∧
    applyFixPipeline ["if (a != b) \x7b\x7d".data] 0 (mkIssue "eqeqeq" 1)
        "raw".data "raw2".data
      ≠ some "if (a !=== b) \x7b\x7d".data := by
  constructor <;> decide

/-! ## C8 — per-document debouncing -/

/-- C8 counterexample: the debouncer is shared, so a trigger for
`b.ts` 500ms after one for `a.ts` cancels the pending `a.ts` run — only
`b.ts` ever fires, though the claim says a different document must not
cancel it. -/
theorem debounce_cross_cancel_cex :
    debounceFired 1000 [(0, "a.ts".data), (500, "b.ts".data)] = ["b.ts".data] ∧
      "a.ts".data ∉ debounceFired 1000 [(0, "a.ts".data), (500, "b.ts".data)] := by
  constructor <;> decide

/-- C8 (amended): any burst of triggers with gaps shorter than the quiet
period — same document or not — collapses to a single invocation for the
last trigger's document. -/
theorem debounce_collapse (wait : Nat) (l : List (Nat × Str))
    (h : rapidGaps wait l = true) (hne : l ≠ []) :
    debounceFired wait l = [(l.getLast hne).2] := by
  induction l with
  | nil => exact absurd rfl hne
  | cons hd tl ih =>
    cases tl with
    | nil =>
      obtain ⟨t, d⟩ := hd
      simp [debounceFired]
    | cons hd2 tl2 =>
      obtain ⟨t1, d1⟩ := hd
      obtain ⟨t2, d2⟩ := hd2
      simp only [rapidGaps, Bool.and_eq_true, decide_eq_true_eq] at h
      rw [List.getLast_cons (by simp)]
      simp only [debounceFired]
      rw [if_neg (by omega)]
      simpa using ih h.2 (by simp)

/-- Three rapid triggers across two documents. -/
def burstTriggers : List (Nat × Str) :=
  [(0, "a.ts".data), (400, "b.ts".data), (900, "a.ts".data)]

theorem debounce_collapse_witness :
    debounceFired 1000 burstTriggers = ["a.ts".data] := by
  have h := debounce_collapse 1000 burstTriggers (by decide) (by decide)
  simpa using h

/-! ## C1 — parser totality -/

/-- The normalized-severity invariant of one mapped issue. -/
def sevOk (i : CodeIssue) : Prop :=
  i.severity = "high".data ∨ i.severity = "medium".data ∨ i.severity = "low".data

/-- The health-score shape the clamp actually guarantees: NaN, or a
rational in `[1, 10]`. -/
def hsOk (x : JSNum) : Prop :=
  x = .nan ∨ ∃ q : ℚ, x = .n q ∧ 1 ≤ q ∧ q ≤ 10

theorem clampHealth_ok (x : JSNum) : hsOk (clampHealth x) := by
  cases x with
  | nan => left; rfl
  | inf =>
    right
    exact ⟨max 1 10, rfl, le_max_left _ _, max_le (by norm_num) le_rfl⟩
  | negInf => right; exact ⟨1, rfl, le_rfl, by norm_num⟩
  | n q =>
    right
    refine ⟨max 1 (min 10 q), rfl, le_max_left _ _, ?_⟩
    exact max_le (by norm_num) (min_le_left _ _)

theorem normalizeSeverity_mem (v : Option Json) :
    normalizeSeverity v = "high".data ∨ normalizeSeverity v = "medium".data ∨
      normalizeSeverity v = "low".data := by
  simp only [normalizeSeverity]
  split_ifs <;> simp

theorem mapIssue_sev (e : Json) (i : CodeIssue) (h : mapIssue e = some i) :
    sevOk i := by
  unfold mapIssue at h
  cases g1 : getField e "type".data with
  | none => rw [g1] at h; cases h
  | some t =>
  rw [g1] at h
  cases g2 : getField e "severity".data with
  | none => rw [g2] at h; cases h
  | some sv =>
  rw [g2] at h
  cases g3 : getField e "line".data with
  | none => rw [g3] at h; cases h
  | some ln =>
  rw [g3] at h
  cases g4 : getField e "description".data with
  | none => rw [g4] at h; cases h
  | some d =>
  rw [g4] at h
  cases g5 : getField e "fixTime".data with
  | none => rw [g5] at h; cases h
  | some ft =>
  rw [g5] at h
  cases g6 : getField e "suggestion".data with
  | none => rw [g6] at h; cases h
  | some sg =>
  rw [g6] at h
  cases g7 : getField e "codeSnippet".data with
  | none => rw [g7] at h; cases h
  | some cs =>
  rw [g7] at h
  injection h with h2
  subst h2
  dsimp only [sevOk]
  exact normalizeSeverity_mem sv

theorem mapIssues_sev (xs : List Json) (l : List CodeIssue)
    (h : mapIssues xs = some l) : ∀ i ∈ l, sevOk i := by
  induction xs generalizing l with
  | nil =>
    injection h with h2
    subst h2
    intro i hi
    cases hi
  | cons e rest ih =>
    unfold mapIssues at h
    cases he : mapIssue e with
    | none => rw [he] at h; cases h
    | some i0 =>
      rw [he] at h
      cases hr : mapIssues rest with
      | none => rw [hr] at h; cases h
      | some l0 =>
        rw [hr] at h
        injection h with h2
        subst h2
        intro i hi
        rcases List.mem_cons.1 hi with rfl | hi
        · exact mapIssue_sev e i he
        · exact ih l0 hr i hi

theorem issuesOf_sev (isf : Option Json) (l : List CodeIssue)
    (h : issuesOf isf = some l) : ∀ i ∈ l, sevOk i := by
  unfold issuesOf at h
  split at h
  · exact mapIssues_sev _ l h
  · injection h with h2
    subst h2
    intro i hi
    cases hi

theorem fallbackIssues_sev (ls : List Str) : ∀ i ∈ fallbackIssues ls, sevOk i := by
  induction ls with
  | nil => intro i hi; cases hi
  | cons line rest ih =>
    intro i hi
    simp only [fallbackIssues] at hi
    rcases List.mem_append.1 hi with hmem | hmem
    · repeat' split at hmem
      all_goals simp only [List.mem_singleton, List.not_mem_nil] at hmem
      all_goals subst hmem
      all_goals dsimp only [sevOk, consoleIssue, varIssue]
      all_goals first
        | exact Or.inr (Or.inl rfl)
        | exact Or.inl rfl
    · exact ih i hmem

theorem fallbackResult_ok (out : Str) :
    (∀ i ∈ (createFallbackResult out).issues, sevOk i) ∧
      hsOk (createFallbackResult out).healthScore := by
  constructor
  · exact fallbackIssues_sev (splitLines out)
  · right
    exact ⟨6, rfl, by norm_num, by norm_num⟩

theorem mapParsed_ok (parsed : Json) (r : AnalysisResult)
    (h : mapParsed parsed = some r) :
    (∀ i ∈ r.issues, sevOk i) ∧ hsOk r.healthScore := by
  unfold mapParsed at h
  cases h1 : getField parsed "healthScore".data with
  | none => rw [h1] at h; cases h
  | some hsf =>
    rw [h1] at h
    dsimp only at h
    cases h2 : getField parsed "issues".data with
    | none => rw [h2] at h; cases h
    | some isf =>
      rw [h2] at h
      dsimp only at h
      cases h3 : issuesOf isf with
      | none => rw [h3] at h; cases h
      | some issues =>
        rw [h3] at h
        dsimp only at h
        cases h4 : getField parsed "suggestions".data with
        | none => rw [h4] at h; cases h
        | some sgf =>
          rw [h4] at h
          dsimp only at h
          cases h5 : getField parsed "metrics".data with
          | none => rw [h5] at h; cases h
          | some mf =>
            rw [h5] at h
            dsimp only at h
            injection h with h6
            subst h6
            exact ⟨issuesOf_sev isf issues h3, clampHealth_ok _⟩

/-- C1 (amended): for every input string the parse is total, every
issue's severity is one of high/medium/low, and the health score is
either NaN (when the decoded `healthScore` field coerces to NaN) or a
rational — not necessarily integral — in `[1, 10]`. -/
theorem parser_totality_amended (s : Str) :
    (∀ i ∈ (parseAnalysisResult s).issues, sevOk i) ∧
      hsOk (parseAnalysisResult s).healthScore := by
  simp only [parseAnalysisResult]
  cases jsonParse ((extractJsonCandidate s).getD s) with
  | none => exact fallbackResult_ok s
  | some parsed =>
    dsimp only
    cases hm : mapParsed parsed with
    | none => exact fallbackResult_ok s
    | some r => exact mapParsed_ok parsed r hm

/-- Is the health score an integer sitting in `[1, 10]`? (The shape the
original claim asserts for every input.) -/
def isIntHealthIn110 (x : JSNum) : Bool :=
  match x with
  | .n q => q.den == 1 && decide (1 ≤ q) && decide (q ≤ 10)
  | _ => false

/-- A decoded object whose `healthScore` field is the string `"bad"`,
which `Number(...)` coerces to NaN. -/
def cexNanInput : Str := "\x7b\"healthScore\":\"bad\"\x7d".data

/-- C1 counterexample: on `{"healthScore":"bad"}` the clamp propagates
NaN, so the parsed health score is NaN — not an integer in `[1, 10]` as
the claim states. -/
theorem parser_totality_cex :
    (parseAnalysisResult cexNanInput).healthScore = JSNum.nan ∧
      isIntHealthIn110 (parseAnalysisResult cexNanInput).healthScore = false := by
  constructor <;> decide

/-- A JSON-free output whose fallback scan synthesizes one `no-var`
issue, for the C1 witness. -/
def fbWitnessInput : Str := "line 3: var x".data

theorem parser_totality_amended_witness : sevOk (varIssue 3) :=
  (parser_totality_amended fbWitnessInput).1 (varIssue 3)
    (by rw [show (parseAnalysisResult fbWitnessInput).issues = [varIssue 3] from rfl]
        exact List.mem_singleton.2 rfl)

/-! ## C2 — range boundedness -/

theorem memOfHeadEq {α : Type} {l : List α} {a : α} (h : l.head? = some a) :
    a ∈ l := by
  cases l with
  | nil => cases h
  | cons b t =>
    injection h with h2
    subst h2
    exact List.mem_cons_self b t

theorem findInRange_lt (doc : List Str) (pat : Str) (lo hi i : Nat)
    (h : findInRange doc pat lo hi = some i) : i < doc.length := by
  unfold findInRange at h
  exact List.mem_range.1 (List.mem_of_mem_filter (memOfHeadEq h))

theorem clampRangeOf_bounds (doc : List Str) (issue : CodeIssue) (r : DiagRange)
    (h : clampRangeOf doc issue = some r) :
    0 ≤ r.startLine ∧ r.startLine ≤ (doc.length : ℤ) - 1 ∧
      0 ≤ r.endLine ∧ r.endLine ≤ (doc.length : ℤ) - 1 := by
  unfold clampRangeOf at h
  by_cases hs : min (max 0 ((if issue.line = 0 then 1 else issue.line) - 1))
      ((doc.length : ℤ) - 1) < 0
  · rw [if_pos hs] at h
    cases h
  · rw [if_neg hs] at h
    injection h with h2
    subst h2
    dsimp only
    omega

/-- C2 (range boundedness): whatever the declared line (zero, negative,
out of range) and whatever the issue shape, any diagnostic produced for a
non-empty document has both its line indices inside `[0, N-1]`. -/
theorem range_bounded (doc : List Str) (issue : CodeIssue)
    (_hne : doc ≠ []) (d : Diagnostic)
    (h : createDiagnosticForIssue doc issue = some d) :
    0 ≤ d.range.startLine ∧ d.range.startLine ≤ (doc.length : ℤ) - 1 ∧
      0 ≤ d.range.endLine ∧ d.range.endLine ≤ (doc.length : ℤ) - 1 := by
  simp only [createDiagnosticForIssue] at h
  by_cases hk : (jsEqStr issue.type "no-var".data || jsEqStr issue.type "no-console".data
      || jsEqStr issue.type "eqeqeq".data) = true
  case neg =>
    rw [if_neg hk] at h
    rcases Option.map_eq_some'.1 h with ⟨r, hr, rfl⟩
    exact clampRangeOf_bounds doc issue r hr
  case pos =>
    rw [if_pos hk] at h
    cases hp : getSearchPatternForIssue issue with
    | none => rw [hp] at h; cases h
    | some pat =>
      rw [hp] at h
      dsimp only at h
      by_cases h0 : 0 ≤ findLineWithPattern doc pat issue.line
      case neg =>
        rw [if_neg h0] at h
        rcases Option.map_eq_some'.1 h with ⟨r, hr, rfl⟩
        exact clampRangeOf_bounds doc issue r hr
      case pos =>
        rw [if_pos h0] at h
        by_cases h1 : findLineWithPattern doc pat issue.line < (doc.length : ℤ)
        case neg =>
          rw [if_neg h1] at h
          cases h
        case pos =>
          rw [if_pos h1] at h
          cases hf : firstIdxOfSub
              (doc.getD (findLineWithPattern doc pat issue.line).toNat []) pat with
          | some m =>
            rw [hf] at h
            injection h with h2
            subst h2
            simp only [mkDiagFor]
            omega
          | none =>
            rw [hf] at h
            injection h with h2
            subst h2
            simp only [mkDiagFor]
            omega

/-- A two-line document and a `no-var` issue with a nonsense declared
line, for the C2 witness. -/
def c2doc : List Str := ["x".data, "var y = 2;".data]

/-- The C2 witness issue: kind `no-var`, declared line `-5`. -/
def c2issue : CodeIssue := mkIssue "no-var" (-5)

/-- The diagnostic the locator produces for `c2doc`/`c2issue`: the global
pattern search finds `var ` on line index 1 at column 0. -/
def c2diag : Diagnostic :=
  { range := ⟨1, 0, 1, 4⟩
    message := diagMessage c2issue
    dsev := diagSeverity c2issue
    code := c2issue.type
    issueData := c2issue }

theorem range_bounded_witness :
    0 ≤ c2diag.range.startLine ∧ c2diag.range.startLine ≤ (c2doc.length : ℤ) - 1 ∧
      0 ≤ c2diag.range.endLine ∧ c2diag.range.endLine ≤ (c2doc.length : ℤ) - 1 :=
  range_bounded c2doc c2issue (by decide) c2diag (by rfl)

/-! ## C5 — no-op on unknown kinds -/

/-- The four issue kinds the applyFix handler recognizes. -/
def knownFixKind (t : Json) : Bool :=
  jsEqStr t "no-var".data || jsEqStr t "no-console".data ||
    jsEqStr t "eqeqeq".data || jsEqStr t "semi".data

/-- C5 counterexample: for an unknown kind with an empty raw fix on the
line `"  foo();"`, the pipeline replaces the line with the *trimmed* text
`"foo();"` — an edit is returned, but its replacement is not
character-for-character identical to the original line. -/
theorem noop_unknown_cex :
    applyFixPipeline ["  foo();".data] 0 (mkIssue "mystery" 1) [] []
        = some "foo();".data ∧
      applyFixPipeline ["  foo();".data] 0 (mkIssue "mystery" 1) [] []
        ≠ some "  foo();".data := by
  constructor <;> decide

/-- C5 (amended): for an unrecognized kind with an empty raw fix the
pipeline produces either no edit at all (whitespace-only or out-of-range
target line) or an edit whose replacement is the original problem line
*trimmed of surrounding whitespace* — a no-op only up to surrounding
whitespace. -/
theorem noop_unknown_amended (code : Str) (issue : CodeIssue) (lineText raw2 : Str)
    (h : knownFixKind issue.type = false) :
    applyFixEdit issue.type lineText (generateFix code issue [] raw2) =
      (if trim (problemLineOf code issue) = [] then none
       else some (trim (problemLineOf code issue))) := by
  simp only [knownFixKind, Bool.or_eq_false_iff] at h
  obtain ⟨⟨⟨h1, h2⟩, h3⟩, h4⟩ := h
  have hg : generateFix code issue [] raw2 = problemLineOf code issue := by
    unfold generateFix
    have e1 : cleanFix1 ([] : Str) = [] := rfl
    have e2 : misfireShape ([] : Str) = false := rfl
    simp only [e1, e2, Bool.false_eq_true, if_false, reduceIte]
    simp only [List.nil_eq, containsSub, Bool.true_or, if_true, reduceIte,
      genFixFallback, h1, h2, h3, Bool.false_eq_true, if_false]
    simp
  rw [hg]
  unfold applyFixEdit
  simp only [h1, h2, h3, h4, Bool.false_eq_true, if_false]
  by_cases ht : trim (problemLineOf code issue) = []
  · simp [ht]
  · have hp : problemLineOf code issue ≠ [] := by
      intro hz
      rw [hz] at ht
      exact ht rfl
    simp [ht, hp]

/-- A line with leading whitespace and an unknown-kind issue, for the C5
witness. -/
def c5issue : CodeIssue := mkIssue "unknownkind" 1

theorem noop_unknown_amended_witness :
    applyFixEdit c5issue.type "  bar();".data
        (generateFix "  bar();".data c5issue [] []) =
      (if trim (problemLineOf "  bar();".data c5issue) = [] then none
       else some (trim (problemLineOf "  bar();".data c5issue))) :=
  noop_unknown_amended "  bar();".data c5issue "  bar();".data [] (by decide)

/-! ## C3 — misfire rejection -/

theorem isPrefixOfAppendSelf (a b : Str) : List.isPrefixOf a (a ++ b) = true := by
  induction a with
  | nil => simp [List.isPrefixOf]
  | cons c a' ih => simp [List.isPrefixOf, ih]

theorem containsOfPrefix (p l : Str) (h : List.isPrefixOf p l = true) :
    containsSub l p = true := by
  cases p with
  | nil => cases l <;> simp [containsSub]
  | cons q ps =>
    cases l with
    | nil => simp [List.isPrefixOf] at h
    | cons c rest => simp [containsSub, h]

theorem containsSub_cons (c : Char) (rest p : Str)
    (h : containsSub rest p = true) : containsSub (c :: rest) p = true := by
  cases p with
  | nil => simp [containsSub]
  | cons q ps => simp [containsSub, h]

theorem containsRepAppend (rep t : Str) : containsSub (rep ++ t) rep = true := by
  cases rep with
  | nil => simp [containsSub]
  | cons r rs => exact containsOfPrefix _ _ (isPrefixOfAppendSelf (r :: rs) t)

theorem replaceAllAux_contains (p rep : Str) (hp : p ≠ []) :
    ∀ (fuel : Nat) (s : Str), s.length ≤ fuel → containsSub s p = true →
      containsSub (replaceAllAux p rep fuel s) rep = true := by
  intro fuel
  induction fuel with
  | zero =>
    intro s hlen hc
    cases s with
    | nil =>
      cases p with
      | nil => exact absurd rfl hp
      | cons q ps => simp [containsSub] at hc
    | cons c rest => simp at hlen
  | succ f ih =>
    intro s hlen hc
    cases s with
    | nil =>
      cases p with
      | nil => exact absurd rfl hp
      | cons q ps => simp [containsSub] at hc
    | cons c rest =>
      simp only [replaceAllAux]
      by_cases hm : p ≠ [] ∧ List.isPrefixOf p (c :: rest) = true
      · rw [if_pos hm]
        exact containsRepAppend rep _
      · rw [if_neg hm]
        have hpre : List.isPrefixOf p (c :: rest) = false := by
          cases hx : List.isPrefixOf p (c :: rest) with
          | false => rfl
          | true => exact absurd ⟨hp, hx⟩ hm
        cases p with
        | nil => exact absurd rfl hp
        | cons q ps =>
          simp only [containsSub, Bool.or_eq_true] at hc
          rcases hc with hc | hc
          · rw [hpre] at hc; cases hc
          · exact containsSub_cons c _ _
              (ih rest (by simp only [List.length_cons] at hlen; omega) hc)

theorem replaceAll_contains (p rep s : Str) (hp : p ≠ [])
    (hc : containsSub s p = true) :
    containsSub (replaceAll p rep s) rep = true :=
  replaceAllAux_contains p rep hp s.length s le_rfl hc

theorem replaceVarGo_eq_or_contains :
    ∀ (s : Str) (prev : Option Char),
      replaceVarGo prev s = s ∨
        containsSub (replaceVarGo prev s) "let".data = true := by
  intro s
  induction s with
  | nil => intro prev; left; rfl
  | cons c rest ih =>
    intro prev
    simp only [replaceVarGo]
    by_cases hb : varBoundaryMatch prev (c :: rest) = true
    · rw [if_pos hb]
      right
      exact containsRepAppend "let".data _
    · rw [if_neg hb]
      rcases ih (some c) with he | hcont
      · left; rw [he]
      · right; exact containsSub_cons c _ _ hcont

theorem genFix_on_misfire (code : Str) (issue : CodeIssue) :
    generateFix code issue misfireJson misfireJson =
      genFixFallback issue (problemLineOf code issue) := by
  have e1 : misfireShape (cleanFix1 misfireJson) = true := rfl
  have e2 : ¬ (misfireJson = ([] : Str)) := by decide
  have e3 : cleanFix2 misfireJson = misfireJson := rfl
  have e4 : containsSub misfireJson "\"healthScore\"".data = true := rfl
  simp only [generateFix, e1, if_true, if_neg e2, e3, e4, Bool.or_true, if_pos]

/-- C3 (misfire rejection): when both fix-generation responses are the
analysis-report JSON, the replacement actually applied can equal that
JSON only if it already was the target line's text (the original line):
for the four known kinds the deterministic transform is applied, and for
unknown kinds `generateFix` falls back to the original problem line. -/
theorem misfire_rejection (code : Str) (issue : CodeIssue) (lineText r : Str)
    (h : applyFixEdit issue.type lineText
        (generateFix code issue misfireJson misfireJson) = some r)
    (hr : r = misfireJson) :
    lineText = misfireJson ∨ trim (problemLineOf code issue) = misfireJson := by
  subst hr
  rw [genFix_on_misfire] at h
  unfold applyFixEdit at h
  by_cases h1 : jsEqStr issue.type "no-var".data = true
  · rw [if_pos h1] at h
    injection h with h2
    rcases replaceVarGo_eq_or_contains lineText none with he | hc
    · left
      rw [replaceFirstVarWord, he] at h2
      exact h2
    · exfalso
      rw [replaceFirstVarWord] at h2
      rw [h2] at hc
      exact absurd hc (by decide)
  rw [if_neg h1] at h
  by_cases h2 : jsEqStr issue.type "no-console".data = true
  · rw [if_pos h2] at h
    injection h with h3
    have h4 := congrArg List.head? h3
    rw [show ("// ".data ++ trim lineText).head? = some '/' from rfl] at h4
    rw [show misfireJson.head? = some '\x7b' from rfl] at h4
    exact absurd h4 (by decide)
  rw [if_neg h2] at h
  by_cases h3 : jsEqStr issue.type "eqeqeq".data = true
  · rw [if_pos h3] at h
    injection h with h4
    by_cases hc1 : (containsSub lineText "!=".data &&
        !containsSub lineText "!==".data) = true
    · rw [if_pos hc1] at h4
      have h5 := replaceAll_contains "!=".data "!==".data lineText (by decide)
        (Bool.and_eq_true .. ▸ hc1).1
      rw [h4] at h5
      exact absurd h5 (by decide)
    · rw [if_neg hc1] at h4
      by_cases hc2 : (containsSub lineText "==".data &&
          !containsSub lineText "===".data) = true
      · rw [if_pos hc2] at h4
        have h5 := replaceAll_contains "==".data "===".data lineText (by decide)
          (Bool.and_eq_true .. ▸ hc2).1
        rw [h4] at h5
        exact absurd h5 (by decide)
      · rw [if_neg hc2] at h4
        exact Or.inl h4
  rw [if_neg h3] at h
  by_cases h4 : jsEqStr issue.type "semi".data = true
  · rw [if_pos h4] at h
    injection h with h5
    have h6 := congrArg List.getLast? h5
    rw [show (";".data : Str) = [';'] from rfl] at h5
    rw [show (trimRight lineText ++ ";".data).getLast? = some ';' from
      List.getLast?_concat _] at h6
    rw [show misfireJson.getLast? = some '\x7d' from rfl] at h6
    exact absurd h6 (by decide)
  rw [if_neg h4] at h
  have hfb : genFixFallback issue (problemLineOf code issue)
      = problemLineOf code issue := by
    unfold genFixFallback
    rw [if_neg h2, if_neg h1, if_neg h3]
  rw [hfb] at h
  by_cases h5 : (problemLineOf code issue ≠ [] &&
      trim (problemLineOf code issue) ≠ []) = true
  · rw [if_pos h5] at h
    injection h with h6
    exact Or.inr h6
  · rw [if_neg h5] at h
    cases h

/-- The unknown-kind issue of the C3 witness. -/
def c3issue : CodeIssue := mkIssue "mystery" 1

theorem misfire_rejection_witness :
    ("x".data : Str) = misfireJson ∨
      trim (problemLineOf misfireJson c3issue) = misfireJson :=
  misfire_rejection misfireJson c3issue "x".data misfireJson (by decide) rfl

/-! ## C9 — fix independence for known kinds -/

/-- C9 (fix independence): for the four recognized kinds the applyFix
replacement is a function of the target line only — the generated fix
string never influences it. -/
theorem fix_independence (t : Json) (lineText f1 f2 : Str)
    (h : t = .str "no-var".data ∨ t = .str "no-console".data ∨
      t = .str "eqeqeq".data ∨ t = .str "semi".data) :
    applyFixEdit t lineText f1 = applyFixEdit t lineText f2 := by
  rcases h with rfl | rfl | rfl | rfl <;> rfl

theorem fix_independence_witness :
    applyFixEdit (.str "no-var".data) "var x = 1;".data "fixA".data
      = applyFixEdit (.str "no-var".data) "var x = 1;".data "fixB".data :=
  fix_independence (.str "no-var".data) "var x = 1;".data "fixA".data "fixB".data
    (Or.inl rfl)

end TDD
